import Mathlib

/-!
# ScopedLocalRef

A shallow embedding of `services_app/jni/sqlite/ScopedLocalRef.h`: the class
template `org_opendatakit::ScopedLocalRef<T>`, a smart pointer that deletes a
JNI local reference when it goes out of scope.

The object is a record of its two data members.  Every member function is a
function from the object's state before the call to an `Effect`: the value the
call returns, the object's state after it, and the calls it made into the JNI
runtime through `mEnv`, in program order.
-/

namespace org_opendatakit

/-- A value of the template parameter `T`: a JNI reference (`jobject`,
`jstring`, ...), which is a pointer; it is modelled by its address. -/
abbrev Handle := Nat

/-- The null pointer constant `nullptr`, the empty handle. -/
abbrev nullptr : Handle := 0

/-- A value of type `JNIEnv*`, modelled by its address. -/
abbrev JNIEnvPtr := Nat

/-- A call made into the JNI runtime through a `JNIEnv*`.  The class makes two
kinds of call: `mEnv->DeleteLocalRef(ref)` and `mEnv->NewLocalRef(ref)`. -/
inductive JNICall where
  | DeleteLocalRef (env : JNIEnvPtr) (ref : Handle)
  | NewLocalRef (env : JNIEnvPtr) (ref : Handle)
  deriving DecidableEq, Repr

/-- The data members of `ScopedLocalRef<T>`: `JNIEnv* const mEnv` and
`T mLocalRef`. -/
structure ScopedLocalRef where
  mEnv : JNIEnvPtr
  mLocalRef : Handle
  deriving DecidableEq, Repr

/-- The outcome of a member function call: the returned value, the state of
the object after the call, and the JNI calls made during it. -/
structure Effect (α : Type) where
  ret : α
  self : ScopedLocalRef
  calls : List JNICall

/-- The constructor
`ScopedLocalRef(JNIEnv* env, T localRef) : mEnv(env), mLocalRef(localRef) {}`. -/
def ScopedLocalRef.ctor (env : JNIEnvPtr) (localRef : Handle) : Effect Unit :=
  { ret := (), self := { mEnv := env, mLocalRef := localRef }, calls := [] }

/-- The member function `void reset(T ptr = nullptr)`:
```
if (ptr != mLocalRef) {
    if (mLocalRef != nullptr) {
        mEnv->DeleteLocalRef(mLocalRef);
    }
    mLocalRef = ptr;
}
```
-/
def ScopedLocalRef.reset (g : ScopedLocalRef) (ptr : Handle) : Effect Unit :=
  if ptr ≠ g.mLocalRef then
    if g.mLocalRef ≠ nullptr then
      { ret := (), self := { g with mLocalRef := ptr },
        calls := [JNICall.DeleteLocalRef g.mEnv g.mLocalRef] }
    else
      { ret := (), self := { g with mLocalRef := ptr }, calls := [] }
  else
    { ret := (), self := g, calls := [] }

/-- The destructor `~ScopedLocalRef() { reset(); }`; the argument of `reset`
is its default, `nullptr`. -/
def ScopedLocalRef.dtor (g : ScopedLocalRef) : Effect Unit :=
  g.reset nullptr

/-- The member function `T release()`:
```
T localRef = mLocalRef;
mLocalRef = nullptr;
return localRef;
```
-/
def ScopedLocalRef.release (g : ScopedLocalRef) : Effect Handle :=
  let localRef := g.mLocalRef
  { ret := localRef, self := { g with mLocalRef := nullptr }, calls := [] }

/-- The member function `T get() const { return mLocalRef; }`. -/
def ScopedLocalRef.get (g : ScopedLocalRef) : Effect Handle :=
  { ret := g.mLocalRef, self := g, calls := [] }

/-- The private copy constructor
```
ScopedLocalRef(const ScopedLocalRef& ref) : mEnv(ref.mEnv) {
    mLocalRef = mEnv->NewLocalRef(ref.mLocalRef);
}
```
`NewLocalRef` is declared in `jni.h`, which is not part of the repository; the
value the runtime returns from it is the parameter `newLocalRef`. -/
def ScopedLocalRef.copyCtor (newLocalRef : JNIEnvPtr → Handle → Handle)
    (ref : ScopedLocalRef) : Effect Unit :=
  let mEnv := ref.mEnv
  { ret := (),
    self := { mEnv := mEnv, mLocalRef := newLocalRef mEnv ref.mLocalRef },
    calls := [JNICall.NewLocalRef mEnv ref.mLocalRef] }

/-- The handles passed to `DeleteLocalRef` in a sequence of JNI calls, in
order: the release calls. -/
def releasedHandles : List JNICall → List Handle
  | [] => []
  | JNICall.DeleteLocalRef _ ref :: rest => ref :: releasedHandles rest
  | JNICall.NewLocalRef _ _ :: rest => releasedHandles rest

/-- A call of one of the public member functions on a live object. -/
inductive Op where
  | reset (ptr : Handle)
  | release
  | get
  deriving DecidableEq, Repr

/-- The state after one operation and the JNI calls it made. -/
def Op.apply (g : ScopedLocalRef) : Op → ScopedLocalRef × List JNICall
  | Op.reset ptr => ((g.reset ptr).self, (g.reset ptr).calls)
  | Op.release => (g.release.self, g.release.calls)
  | Op.get => (g.get.self, g.get.calls)

/-- The state after a sequence of operations, run in order from `g`, and the
JNI calls made by them, in order. -/
def runOps (g : ScopedLocalRef) : List Op → ScopedLocalRef × List JNICall
  | [] => (g, [])
  | op :: rest =>
    let s := op.apply g
    let r := runOps s.1 rest
    (r.1, s.2 ++ r.2)

/-- The JNI calls made over the whole life of an object: construction with
`env` and `localRef`, the operations `ops`, then destruction. -/
def lifetimeCalls (env : JNIEnvPtr) (localRef : Handle) (ops : List Op) : List JNICall :=
  let c := ScopedLocalRef.ctor env localRef
  let r := runOps c.self ops
  c.calls ++ r.2 ++ r.1.dtor.calls

/-- The arguments of the `reset` calls in a sequence of operations. -/
def resetArgs : List Op → List Handle
  | [] => []
  | Op.reset ptr :: rest => ptr :: resetArgs rest
  | _ :: rest => resetArgs rest

/-- The non-empty handles handed to an object: the constructor's argument and
the arguments of `reset`, without the null ones. -/
def suppliedHandles (localRef : Handle) (ops : List Op) : List Handle :=
  (localRef :: resetArgs ops).filter (fun h => h ≠ nullptr)

/-- The state reached from construction with `env` and `localRef` by the
operations `ops`, and the JNI calls made so far. -/
def afterOps (env : JNIEnvPtr) (localRef : Handle) (ops : List Op) :
    ScopedLocalRef × List JNICall :=
  let c := ScopedLocalRef.ctor env localRef
  let r := runOps c.self ops
  (r.1, c.calls ++ r.2)

/-- One when the object holds the handle `v`, zero otherwise. -/
def holding (g : ScopedLocalRef) (v : Handle) : Nat :=
  if g.mLocalRef = v then 1 else 0

/-- The spec's account of destruction, in its words: it "releases any held
handle": one release call with the held handle through the stored context when
the held handle is non-empty, none otherwise, and no handle is held
afterwards. -/
def specDestruction (g : ScopedLocalRef) : Effect Unit :=
  { ret := (),
    self := { mEnv := g.mEnv, mLocalRef := nullptr },
    calls := if g.mLocalRef = nullptr then [] else [JNICall.DeleteLocalRef g.mEnv g.mLocalRef] }

/-- The private copy-assignment operator
`void operator=(const ScopedLocalRef&) {};`: its body is empty.  The result is
the outcome for the object assigned to, paired with the state of the argument
object after the call (a const reference, never written). -/
def ScopedLocalRef.assign (g : ScopedLocalRef) (other : ScopedLocalRef) :
    Effect Unit × ScopedLocalRef :=
  ({ ret := (), self := g, calls := [] }, other)

/-- The values returned by the `release()` calls in a sequence of operations
run in order from `g`, in order. -/
def releaseReturns (g : ScopedLocalRef) : List Op → List Handle
  | [] => []
  | Op.reset ptr :: rest => releaseReturns (g.reset ptr).self rest
  | Op.release :: rest => g.release.ret :: releaseReturns g.release.self rest
  | Op.get :: rest => releaseReturns g.get.self rest

/-- Whether no `reset` in a sequence of operations is handed a handle that has
already been released: the sequence is run in order from `g`, `released` are
the handles passed to `DeleteLocalRef` before it, and the argument of each
`reset` is looked up among the handles released before that call. -/
def resetsFresh (g : ScopedLocalRef) (released : List Handle) : List Op → Bool
  | [] => true
  | Op.reset ptr :: rest =>
    decide (ptr ∉ released) &&
      resetsFresh (g.reset ptr).self (released ++ releasedHandles (g.reset ptr).calls) rest
  | Op.release :: rest =>
    resetsFresh g.release.self (released ++ releasedHandles g.release.calls) rest
  | Op.get :: rest =>
    resetsFresh g.get.self (released ++ releasedHandles g.get.calls) rest

/-! ## The three paths through `reset` -/

/-- The path of `reset` on which the argument is the held handle: nothing
happens. -/
theorem reset_same (g : ScopedLocalRef) (n : Handle) (hn : n = g.mLocalRef) :
    g.reset n = { ret := (), self := g, calls := [] } := by
  unfold ScopedLocalRef.reset
  rw [if_neg (not_not.mpr hn)]

/-- The path of `reset` on which the argument differs from the held handle and
the held handle is non-empty: the held handle is deleted, the argument
stored. -/
theorem reset_other_held (g : ScopedLocalRef) (n : Handle) (hn : n ≠ g.mLocalRef)
    (hc : g.mLocalRef ≠ nullptr) :
    g.reset n = { ret := (), self := { mEnv := g.mEnv, mLocalRef := n },
                  calls := [JNICall.DeleteLocalRef g.mEnv g.mLocalRef] } := by
  unfold ScopedLocalRef.reset
  rw [if_pos hn, if_pos hc]

/-- The path of `reset` on which the argument differs from the held handle and
the held handle is empty: the argument is stored without a JNI call. -/
theorem reset_other_empty (g : ScopedLocalRef) (n : Handle) (hn : n ≠ g.mLocalRef)
    (hc : g.mLocalRef = nullptr) :
    g.reset n = { ret := (), self := { mEnv := g.mEnv, mLocalRef := n }, calls := [] } := by
  unfold ScopedLocalRef.reset
  rw [if_pos hn, if_neg (not_not.mpr hc)]

/-- After `reset(n)` the object holds `n`, on every path. -/
theorem reset_holds (g : ScopedLocalRef) (n : Handle) : (g.reset n).self.mLocalRef = n := by
  by_cases hn : n = g.mLocalRef
  · rw [reset_same g n hn]; exact hn.symm
  · by_cases hc : g.mLocalRef = nullptr
    · rw [reset_other_empty g n hn hc]
    · rw [reset_other_held g n hn hc]

/-- The member `mEnv` is const: `reset` leaves it as it was. -/
theorem reset_env (g : ScopedLocalRef) (n : Handle) : (g.reset n).self.mEnv = g.mEnv := by
  by_cases hn : n = g.mLocalRef
  · rw [reset_same g n hn]
  · by_cases hc : g.mLocalRef = nullptr
    · rw [reset_other_empty g n hn hc]
    · rw [reset_other_held g n hn hc]

/-- The destructor makes the calls the spec's account of destruction names. -/
theorem dtor_spec_calls (g : ScopedLocalRef) : g.dtor.calls = (specDestruction g).calls := by
  by_cases hc : g.mLocalRef = nullptr
  · simp only [ScopedLocalRef.dtor, specDestruction]
    rw [reset_same g nullptr hc.symm, if_pos hc]
  · simp only [ScopedLocalRef.dtor, specDestruction]
    rw [reset_other_held g nullptr (fun e => hc e.symm) hc, if_neg hc]

/-! ## Single operations -/

/-- C1: for every state with held handle `c` and every argument `n`, when `n`
differs from `c`, `reset(n)` makes exactly one release call, with `c` through
the stored context, if `c` is non-empty, and no call if `c` is empty, and
afterwards the object holds `n` (its context unchanged); when `n` equals `c` it
makes no call and leaves the object unchanged. -/
theorem C1_reset_contract (g : ScopedLocalRef) (n : Handle) :
    (n ≠ g.mLocalRef → g.mLocalRef ≠ nullptr →
      (g.reset n).calls = [JNICall.DeleteLocalRef g.mEnv g.mLocalRef]) ∧
    (n ≠ g.mLocalRef → g.mLocalRef = nullptr → (g.reset n).calls = []) ∧
    (n ≠ g.mLocalRef →
      (g.reset n).self.mLocalRef = n ∧ (g.reset n).self.mEnv = g.mEnv) ∧
    (n = g.mLocalRef → (g.reset n).calls = [] ∧ (g.reset n).self = g) := by
  refine ⟨?_, ?_, ?_, ?_⟩
  · intro hn hc
    rw [reset_other_held g n hn hc]
  · intro hn hc
    rw [reset_other_empty g n hn hc]
  · intro _
    exact ⟨reset_holds g n, reset_env g n⟩
  · intro hn
    rw [reset_same g n hn]
    exact ⟨rfl, rfl⟩

/-- C2, at the empty handle: an object constructed with `nullptr` and then
destroyed makes no release call, so "exactly one release call" fails for this
handle. -/
theorem C2_counterexample_null :
    lifetimeCalls 1 nullptr [] = [] ∧
    ¬ (releasedHandles (lifetimeCalls 1 nullptr [])).length = 1 := by
  decide

/-- C2, amended: for every non-empty handle `h`, constructing an object with
`h` and destroying it with no operation in between makes exactly one JNI call,
a release call with `h` through the context given to the constructor. -/
theorem C2_construct_destroy_nonnull (env : JNIEnvPtr) (h : Handle) (hh : h ≠ nullptr) :
    lifetimeCalls env h [] = [JNICall.DeleteLocalRef env h] ∧
    releasedHandles (lifetimeCalls env h []) = [h] := by
  have hh0 : ¬ h = 0 := hh
  have h0 : ¬ (0 : Nat) = h := fun e => hh e.symm
  simp [lifetimeCalls, runOps, ScopedLocalRef.ctor, ScopedLocalRef.dtor, ScopedLocalRef.reset,
    releasedHandles, hh0, h0]

/-- C2, amended, at a concrete handle: context 1, handle 5. -/
theorem C2_construct_destroy_nonnull_witness :
    lifetimeCalls 1 5 [] = [JNICall.DeleteLocalRef 1 5] ∧
    releasedHandles (lifetimeCalls 1 5 []) = [5] :=
  C2_construct_destroy_nonnull 1 5 (by decide)

/-- C3: for every state with held handle `c`, `release()` returns `c`, leaves
the object holding the empty handle (its context unchanged) and makes no JNI
call; destroying the object right after `release()` makes no JNI call. -/
theorem C3_release_contract (g : ScopedLocalRef) :
    g.release.ret = g.mLocalRef ∧
    g.release.self.mLocalRef = nullptr ∧
    g.release.self.mEnv = g.mEnv ∧
    g.release.calls = [] ∧
    g.release.self.dtor.calls = [] ∧
    releasedHandles (g.release.calls ++ g.release.self.dtor.calls) = [] := by
  simp [ScopedLocalRef.release, ScopedLocalRef.dtor, ScopedLocalRef.reset, releasedHandles]

/-- C4: for every state, `get()` returns the held handle, leaves the held
handle and the context unchanged and makes no JNI call; and a `get()` put
anywhere in a sequence of operations changes neither the state the sequence
ends in nor the JNI calls it makes. -/
theorem C4_get_frame (g : ScopedLocalRef) (before after : List Op) :
    g.get.ret = g.mLocalRef ∧
    g.get.self = g ∧
    g.get.calls = [] ∧
    runOps g (before ++ Op.get :: after) = runOps g (before ++ after) := by
  refine ⟨rfl, rfl, rfl, ?_⟩
  induction before generalizing g with
  | nil => simp [runOps, Op.apply, ScopedLocalRef.get]
  | cons op rest ih => simp [runOps, ih]

/-- C5: constructing an object with the empty handle and then destroying it
makes no JNI call, so no release call. -/
theorem C5_null_construct_destroy (env : JNIEnvPtr) :
    lifetimeCalls env nullptr [] = [] ∧
    releasedHandles (lifetimeCalls env nullptr []) = [] := by
  simp [lifetimeCalls, runOps, ScopedLocalRef.ctor, ScopedLocalRef.dtor, ScopedLocalRef.reset,
    releasedHandles]

/-- C6: for every state and every handle `h`, in `reset(h)` followed by
`reset(h)` the second call makes no JNI call and leaves the object as the
first call left it, and the two calls together make at most one release
call. -/
theorem C6_reset_twice (g : ScopedLocalRef) (h : Handle) :
    ((g.reset h).self.reset h).calls = [] ∧
    ((g.reset h).self.reset h).self = (g.reset h).self ∧
    (releasedHandles ((g.reset h).calls ++ ((g.reset h).self.reset h).calls)).length ≤ 1 ∧
    runOps g [Op.reset h, Op.reset h] = runOps g [Op.reset h] := by
  have h2 : (g.reset h).self.reset h = { ret := (), self := (g.reset h).self, calls := [] } :=
    reset_same (g.reset h).self h (reset_holds g h).symm
  refine ⟨by rw [h2], by rw [h2], ?_, ?_⟩
  · rw [h2, List.append_nil]
    by_cases hn : h = g.mLocalRef
    · rw [reset_same g h hn]; simp [releasedHandles]
    · by_cases hc : g.mLocalRef = nullptr
      · rw [reset_other_empty g h hn hc]; simp [releasedHandles]
      · rw [reset_other_held g h hn hc]; simp [releasedHandles]
  · simp only [runOps, Op.apply, h2, List.append_nil]

/-! ## Sequences of operations -/

/-- The release calls of two runs of JNI calls, one after the other. -/
theorem releasedHandles_append (a b : List JNICall) :
    releasedHandles (a ++ b) = releasedHandles a ++ releasedHandles b := by
  induction a with
  | nil => rfl
  | cons c rest ih =>
    cases c with
    | DeleteLocalRef env ref => simp [releasedHandles, ih]
    | NewLocalRef env ref => simp [releasedHandles, ih]

/-- One operation: the releases of a non-empty handle `v` plus the hold of `v`
afterwards are paid for by the hold of `v` before plus the hand-over of `v` to
`reset`. -/
theorem apply_account (g : ScopedLocalRef) (op : Op) (v : Handle) (hv : v ≠ nullptr) :
    List.count v (releasedHandles (op.apply g).2) + holding (op.apply g).1 v
      ≤ holding g v + List.count v (resetArgs [op]) := by
  cases op with
  | reset ptr =>
    simp only [Op.apply, resetArgs]
    by_cases hn : ptr = g.mLocalRef
    · rw [reset_same g ptr hn]
      simp [releasedHandles]
    · by_cases hc : g.mLocalRef = nullptr
      · rw [reset_other_empty g ptr hn hc]
        have h0 : holding g v = 0 := by
          unfold holding
          rw [if_neg (fun e => hv (e.symm.trans hc))]
        by_cases hp : ptr = v <;> simp [releasedHandles, holding, hp, h0]
      · rw [reset_other_held g ptr hn hc]
        by_cases hg : g.mLocalRef = v
        · have hpv : ¬ ptr = v := fun e => hn (e.trans hg.symm)
          simp [releasedHandles, holding, hg, hpv]
        · by_cases hp : ptr = v <;> simp [releasedHandles, holding, List.count_cons, hp, hg]
  | release =>
    have hv0 : ¬ (0 : Nat) = v := fun e => hv e.symm
    simp [Op.apply, ScopedLocalRef.release, releasedHandles, resetArgs, holding, hv0]
  | get =>
    simp [Op.apply, ScopedLocalRef.get, releasedHandles, resetArgs]

/-- The arguments of `reset` in a sequence that starts with `op`. -/
theorem resetArgs_cons (op : Op) (rest : List Op) :
    resetArgs (op :: rest) = resetArgs [op] ++ resetArgs rest := by
  cases op <;> simp [resetArgs]

/-- A sequence of operations: the releases of a non-empty handle `v` plus the
hold of `v` at the end are paid for by the hold of `v` at the start plus the
hand-overs of `v` to `reset`. -/
theorem runOps_account (g : ScopedLocalRef) (ops : List Op) (v : Handle) (hv : v ≠ nullptr) :
    List.count v (releasedHandles (runOps g ops).2) + holding (runOps g ops).1 v
      ≤ holding g v + List.count v (resetArgs ops) := by
  induction ops generalizing g with
  | nil => simp [runOps, releasedHandles, resetArgs]
  | cons op rest ih =>
    have h1 := apply_account g op v hv
    have h2 := ih (op.apply g).1
    rw [resetArgs_cons op rest, List.count_append]
    simp only [runOps, releasedHandles_append, List.count_append]
    omega

/-- One operation never passes the empty handle to `DeleteLocalRef`. -/
theorem apply_releases_nonnull (g : ScopedLocalRef) (op : Op) :
    nullptr ∉ releasedHandles (op.apply g).2 := by
  cases op with
  | reset ptr =>
    simp only [Op.apply]
    by_cases hn : ptr = g.mLocalRef
    · rw [reset_same g ptr hn]; simp [releasedHandles]
    · by_cases hc : g.mLocalRef = nullptr
      · rw [reset_other_empty g ptr hn hc]; simp [releasedHandles]
      · rw [reset_other_held g ptr hn hc]
        have hc0 : ¬ (0 : Nat) = g.mLocalRef := fun e => hc e.symm
        simp [releasedHandles, hc0]
  | release => simp [Op.apply, ScopedLocalRef.release, releasedHandles]
  | get => simp [Op.apply, ScopedLocalRef.get, releasedHandles]

/-- A sequence of operations never passes the empty handle to
`DeleteLocalRef`. -/
theorem runOps_releases_nonnull (g : ScopedLocalRef) (ops : List Op) :
    nullptr ∉ releasedHandles (runOps g ops).2 := by
  induction ops generalizing g with
  | nil => simp [runOps, releasedHandles]
  | cons op rest ih =>
    simp only [runOps, releasedHandles_append, List.mem_append, not_or]
    exact ⟨apply_releases_nonnull g op, ih (op.apply g).1⟩

/-- The destructor: the releases of a non-empty handle `v` are paid for by the
hold of `v`. -/
theorem dtor_account (g : ScopedLocalRef) (v : Handle) (hv : v ≠ nullptr) :
    List.count v (releasedHandles g.dtor.calls) ≤ holding g v := by
  have h := apply_account g (Op.reset nullptr) v hv
  have h0 : ¬ (0 : Nat) = v := fun e => hv e.symm
  simp only [Op.apply, resetArgs, List.count_cons, List.count_nil] at h
  simp only [ScopedLocalRef.dtor]
  simp [h0] at h
  omega

/-- The destructor never passes the empty handle to `DeleteLocalRef`. -/
theorem dtor_releases_nonnull (g : ScopedLocalRef) :
    nullptr ∉ releasedHandles g.dtor.calls :=
  apply_releases_nonnull g (Op.reset nullptr)

/-- The count of a non-empty handle among the supplied handles. -/
theorem count_supplied (env : JNIEnvPtr) (localRef : Handle) (ops : List Op) (v : Handle)
    (hv : v ≠ nullptr) :
    List.count v (suppliedHandles localRef ops)
      = holding (ScopedLocalRef.ctor env localRef).self v + List.count v (resetArgs ops) := by
  unfold suppliedHandles
  rw [List.count_filter (by simpa using hv), List.count_cons]
  simp only [ScopedLocalRef.ctor, holding, beq_iff_eq]
  omega

/-- Over the whole life of an object no handle is released more often than it
was supplied. -/
theorem lifetime_account (env : JNIEnvPtr) (localRef : Handle) (ops : List Op) (v : Handle) :
    List.count v (releasedHandles (lifetimeCalls env localRef ops))
      ≤ List.count v (suppliedHandles localRef ops) := by
  by_cases hv : v = nullptr
  · have h1 := runOps_releases_nonnull (ScopedLocalRef.ctor env localRef).self ops
    have h2 := dtor_releases_nonnull (runOps (ScopedLocalRef.ctor env localRef).self ops).1
    have h3 : v ∉ releasedHandles (lifetimeCalls env localRef ops) := by
      rw [hv]
      simp only [lifetimeCalls, releasedHandles_append, List.mem_append, not_or]
      exact ⟨⟨by simp [ScopedLocalRef.ctor, releasedHandles], h1⟩, h2⟩
    rw [List.count_eq_zero_of_not_mem h3]
    exact Nat.zero_le _
  · have h1 := runOps_account (ScopedLocalRef.ctor env localRef).self ops v hv
    have h2 := dtor_account (runOps (ScopedLocalRef.ctor env localRef).self ops).1 v hv
    rw [count_supplied env localRef ops v hv]
    simp only [lifetimeCalls, releasedHandles_append, List.count_append]
    have h3 : List.count v (releasedHandles (ScopedLocalRef.ctor env localRef).calls) = 0 := by
      simp [ScopedLocalRef.ctor, releasedHandles]
    omega

/-- A run in which no `reset` is handed an already-released handle keeps two
facts true: no handle has been released twice, and the held handle is empty or
has not been released. -/
theorem runOps_fresh (g : ScopedLocalRef) (released : List Handle) (ops : List Op)
    (hR : released.Nodup) (hheld : g.mLocalRef = nullptr ∨ g.mLocalRef ∉ released)
    (hf : resetsFresh g released ops = true) :
    (released ++ releasedHandles (runOps g ops).2).Nodup ∧
    ((runOps g ops).1.mLocalRef = nullptr ∨
      (runOps g ops).1.mLocalRef ∉ released ++ releasedHandles (runOps g ops).2) := by
  induction ops generalizing g released with
  | nil => simpa [runOps, releasedHandles] using ⟨hR, hheld⟩
  | cons op rest ih =>
    cases op with
    | get =>
      have hf2 : resetsFresh g released rest = true := by
        simpa [resetsFresh, ScopedLocalRef.get, releasedHandles] using hf
      simpa [runOps, Op.apply, ScopedLocalRef.get] using ih g released hR hheld hf2
    | release =>
      have hf2 : resetsFresh g.release.self released rest = true := by
        simpa [resetsFresh, ScopedLocalRef.release, releasedHandles] using hf
      simpa [runOps, Op.apply, ScopedLocalRef.release] using
        ih g.release.self released hR (Or.inl rfl) hf2
    | reset ptr =>
      simp only [resetsFresh, Bool.and_eq_true, decide_eq_true_eq] at hf
      obtain ⟨hp, hf2⟩ := hf
      by_cases hn : ptr = g.mLocalRef
      · simp only [reset_same g ptr hn, releasedHandles, List.append_nil] at hf2
        simpa [runOps, Op.apply, reset_same g ptr hn] using ih g released hR hheld hf2
      · by_cases hc : g.mLocalRef = nullptr
        · simp only [reset_other_empty g ptr hn hc, releasedHandles, List.append_nil] at hf2
          simpa [runOps, Op.apply, reset_other_empty g ptr hn hc] using
            ih { mEnv := g.mEnv, mLocalRef := ptr } released hR (Or.inr hp) hf2
        · simp only [reset_other_held g ptr hn hc, releasedHandles] at hf2
          have hnot : g.mLocalRef ∉ released := hheld.resolve_left hc
          have hR2 : (released ++ [g.mLocalRef]).Nodup := by
            rw [List.nodup_append]
            refine ⟨hR, List.nodup_singleton _, ?_⟩
            intro a ha hb
            rw [List.mem_singleton] at hb
            exact hnot (hb ▸ ha)
          have hp2 : ptr ∉ released ++ [g.mLocalRef] := by
            simp only [List.mem_append, List.mem_singleton, not_or]
            exact ⟨hp, hn⟩
          have h := ih { mEnv := g.mEnv, mLocalRef := ptr } (released ++ [g.mLocalRef]) hR2
            (Or.inr hp2) hf2
          simpa [runOps, Op.apply, reset_other_held g ptr hn hc, releasedHandles,
            releasedHandles_append] using h

/-- The destructor after such a run releases no handle a second time. -/
theorem dtor_fresh (g : ScopedLocalRef) (released : List Handle)
    (hR : released.Nodup) (hheld : g.mLocalRef = nullptr ∨ g.mLocalRef ∉ released) :
    (released ++ releasedHandles g.dtor.calls).Nodup := by
  rw [dtor_spec_calls]
  by_cases hc : g.mLocalRef = nullptr
  · simpa [specDestruction, hc, releasedHandles] using hR
  · have hnot : g.mLocalRef ∉ released := hheld.resolve_left hc
    simp only [specDestruction, if_neg hc, releasedHandles]
    rw [List.nodup_append]
    refine ⟨hR, List.nodup_singleton _, ?_⟩
    intro a ha hb
    rw [List.mem_singleton] at hb
    exact hnot (hb ▸ ha)

/-- C7, as stated, fails: an object constructed with handle 5, given
`reset(7)` and then `reset(5)`, and destroyed, makes the release calls 5, 7, 5;
the handle 5 occurs twice. -/
theorem C7_counterexample_resupplied :
    releasedHandles (lifetimeCalls 1 5 [Op.reset 7, Op.reset 5]) = [5, 7, 5] ∧
    ¬ (releasedHandles (lifetimeCalls 1 5 [Op.reset 7, Op.reset 5])).Nodup := by
  decide

/-- C7, amended: for every object and every finite sequence of
`reset`/`release`/`get` operations in which no `reset` is handed a handle that
occurs among the release calls made before that `reset`, followed by
destruction, no handle value occurs more than once among the release calls
made. -/
theorem C7_no_double_release (env : JNIEnvPtr) (localRef : Handle) (ops : List Op)
    (hf : resetsFresh (ScopedLocalRef.ctor env localRef).self [] ops = true) :
    (releasedHandles (lifetimeCalls env localRef ops)).Nodup := by
  have h := runOps_fresh (ScopedLocalRef.ctor env localRef).self [] ops List.nodup_nil
    (Or.inr (List.not_mem_nil _)) hf
  have h2 := dtor_fresh (runOps (ScopedLocalRef.ctor env localRef).self ops).1
    ([] ++ releasedHandles (runOps (ScopedLocalRef.ctor env localRef).self ops).2) h.1 h.2
  simpa [lifetimeCalls, releasedHandles_append, ScopedLocalRef.ctor, releasedHandles] using h2

/-- C7, amended, at a concrete run: handle 5, then `reset(5)` (the held
handle), `reset(7)`, `release()`, `reset(7)` (handed back after `release()`
returned it), `get()`, `reset(nullptr)`, `reset(9)`; no `reset` is handed a
released handle, and the release calls 5, 7, 9 are pairwise distinct. -/
theorem C7_no_double_release_witness :
    resetsFresh (ScopedLocalRef.ctor 1 5).self [] [Op.reset 5, Op.reset 7, Op.release,
        Op.reset 7, Op.get, Op.reset nullptr, Op.reset 9] = true ∧
    (releasedHandles (lifetimeCalls 1 5 [Op.reset 5, Op.reset 7, Op.release, Op.reset 7,
        Op.get, Op.reset nullptr, Op.reset 9])).Nodup :=
  ⟨by decide, C7_no_double_release 1 5 [Op.reset 5, Op.reset 7, Op.release, Op.reset 7,
      Op.get, Op.reset nullptr, Op.reset 9] (by decide)⟩

/-- C8, as stated, fails: after construction with handle 5, `reset(7)` and
`reset(5)`, the object holds 5, which is non-empty and was passed to
`DeleteLocalRef` by the first `reset`. -/
theorem C8_counterexample_resupplied :
    (afterOps 1 5 [Op.reset 7, Op.reset 5]).1.mLocalRef = 5 ∧
    releasedHandles (afterOps 1 5 [Op.reset 7, Op.reset 5]).2 = [5, 7] ∧
    ¬ ((afterOps 1 5 [Op.reset 7, Op.reset 5]).1.mLocalRef = nullptr ∨
        (afterOps 1 5 [Op.reset 7, Op.reset 5]).1.mLocalRef ∉
          releasedHandles (afterOps 1 5 [Op.reset 7, Op.reset 5]).2) := by
  decide

/-- C8, amended: in every state reached from construction by a finite sequence
of `reset`/`release`/`get` operations in which no `reset` is handed a handle
that occurs among the release calls made before that `reset`, the held handle
is empty or does not occur among the release calls made so far. -/
theorem C8_held_not_released (env : JNIEnvPtr) (localRef : Handle) (ops : List Op)
    (hf : resetsFresh (ScopedLocalRef.ctor env localRef).self [] ops = true) :
    (afterOps env localRef ops).1.mLocalRef = nullptr ∨
    (afterOps env localRef ops).1.mLocalRef ∉ releasedHandles (afterOps env localRef ops).2 := by
  have h := runOps_fresh (ScopedLocalRef.ctor env localRef).self [] ops List.nodup_nil
    (Or.inr (List.not_mem_nil _)) hf
  simpa [afterOps, ScopedLocalRef.ctor] using h.2

/-- C8, amended, at a concrete run: handle 5, then `reset(7)`, `release()`,
`reset(7)` (handed back after `release()` returned it), `reset(7)` (the held
handle); no `reset` is handed a released handle, and the object ends holding 7
with 5 the only handle released. -/
theorem C8_held_not_released_witness :
    resetsFresh (ScopedLocalRef.ctor 1 5).self []
        [Op.reset 7, Op.release, Op.reset 7, Op.reset 7] = true ∧
    ((afterOps 1 5 [Op.reset 7, Op.release, Op.reset 7, Op.reset 7]).1.mLocalRef = nullptr ∨
      (afterOps 1 5 [Op.reset 7, Op.release, Op.reset 7, Op.reset 7]).1.mLocalRef ∉
        releasedHandles (afterOps 1 5 [Op.reset 7, Op.release, Op.reset 7, Op.reset 7]).2) :=
  ⟨by decide,
    C8_held_not_released 1 5 [Op.reset 7, Op.release, Op.reset 7, Op.reset 7] (by decide)⟩

/-! ## Destruction and copying -/

/-- C9: for every state, the destructor makes exactly the JNI calls that
`reset` with the empty handle makes from that state and ends in the same
state; these are the calls and the end state of destruction as the spec
describes it: one release call with the held handle through the stored context
when it is non-empty, none otherwise, and the empty handle held at the end. -/
theorem C9_dtor_is_reset_null (g : ScopedLocalRef) :
    g.dtor.calls = (g.reset nullptr).calls ∧
    g.dtor.self = (g.reset nullptr).self ∧
    g.dtor.calls = (specDestruction g).calls ∧
    g.dtor.self = (specDestruction g).self ∧
    g.dtor.self.mLocalRef = nullptr := by
  refine ⟨rfl, rfl, ?_, ?_, reset_holds g nullptr⟩
  · exact dtor_spec_calls g
  · by_cases hc : g.mLocalRef = nullptr
    · simp only [ScopedLocalRef.dtor, specDestruction]
      rw [reset_same g nullptr hc.symm, ← hc]
    · simp only [ScopedLocalRef.dtor, specDestruction]
      rw [reset_other_held g nullptr (fun e => hc e.symm) hc]

/-- C10, as stated, fails when the runtime's `NewLocalRef` returns the handle
it was given: the copy of an object holding 5 on context 1 then holds 5 too,
and both destructors make the release call `DeleteLocalRef(5)`. -/
theorem C10_counterexample_same_handle :
    (ScopedLocalRef.copyCtor (fun _ r => r) { mEnv := 1, mLocalRef := 5 }).self.mLocalRef = 5 ∧
    releasedHandles (ScopedLocalRef.dtor { mEnv := 1, mLocalRef := 5 }).calls = [5] ∧
    releasedHandles
      (ScopedLocalRef.copyCtor (fun _ r => r) { mEnv := 1, mLocalRef := 5 }).self.dtor.calls
      = [5] ∧
    ¬ (∀ a ∈ releasedHandles (ScopedLocalRef.dtor { mEnv := 1, mLocalRef := 5 }).calls,
        ∀ b ∈ releasedHandles
          (ScopedLocalRef.copyCtor (fun _ r => r) { mEnv := 1, mLocalRef := 5 }).self.dtor.calls,
          a ≠ b) := by
  decide

/-- C10, amended: for every source object holding a non-empty handle `c`, the
copy constructor makes one call, `NewLocalRef(c)` on the source's context, and
the copy holds the handle the runtime returned from it, on the same context;
when both objects are destroyed the source makes one release call, with `c`,
and the copy makes one with the returned handle (none if it is empty), and no
release call of the copy has the handle of a release call of the source
exactly when the returned handle is not `c` itself. -/
theorem C10_copy_holds_new_ref (newLocalRef : JNIEnvPtr → Handle → Handle)
    (src : ScopedLocalRef) (hc : src.mLocalRef ≠ nullptr) :
    (ScopedLocalRef.copyCtor newLocalRef src).calls
      = [JNICall.NewLocalRef src.mEnv src.mLocalRef] ∧
    (ScopedLocalRef.copyCtor newLocalRef src).self.mEnv = src.mEnv ∧
    (ScopedLocalRef.copyCtor newLocalRef src).self.mLocalRef
      = newLocalRef src.mEnv src.mLocalRef ∧
    src.dtor.calls = [JNICall.DeleteLocalRef src.mEnv src.mLocalRef] ∧
    (ScopedLocalRef.copyCtor newLocalRef src).self.dtor.calls
      = (if newLocalRef src.mEnv src.mLocalRef = nullptr then []
         else [JNICall.DeleteLocalRef src.mEnv (newLocalRef src.mEnv src.mLocalRef)]) ∧
    ((∀ a ∈ releasedHandles src.dtor.calls,
      ∀ b ∈ releasedHandles (ScopedLocalRef.copyCtor newLocalRef src).self.dtor.calls,
        a ≠ b) ↔ newLocalRef src.mEnv src.mLocalRef ≠ src.mLocalRef) := by
  have hsrc : src.dtor.calls = [JNICall.DeleteLocalRef src.mEnv src.mLocalRef] := by
    simp only [ScopedLocalRef.dtor]
    rw [reset_other_held src nullptr (fun e => hc e.symm) hc]
  have hcp : (ScopedLocalRef.copyCtor newLocalRef src).self.dtor.calls
      = (if newLocalRef src.mEnv src.mLocalRef = nullptr then []
         else [JNICall.DeleteLocalRef src.mEnv (newLocalRef src.mEnv src.mLocalRef)]) := by
    have h := (dtor_spec_calls (ScopedLocalRef.copyCtor newLocalRef src).self)
    rw [h]
    simp [specDestruction, ScopedLocalRef.copyCtor]
  refine ⟨rfl, rfl, rfl, hsrc, hcp, ?_⟩
  rw [hsrc, hcp]
  by_cases hz : newLocalRef src.mEnv src.mLocalRef = nullptr
  · rw [if_pos hz]
    constructor
    · intro _ e
      exact hc (e ▸ hz)
    · intro _ a _ b hb
      simp [releasedHandles] at hb
  · rw [if_neg hz]
    simp only [releasedHandles, List.mem_singleton]
    constructor
    · intro h e
      exact h src.mLocalRef rfl (newLocalRef src.mEnv src.mLocalRef) rfl e.symm
    · intro h a ha b hb e
      rw [ha, hb] at e
      exact h e.symm

/-- C10, amended, at a concrete source: context 1, handle 5, and a runtime
whose `NewLocalRef` returns the reference 100 places further on; the copy holds
105, releases 105, and shares no release call with the source. -/
theorem C10_copy_holds_new_ref_witness :
    (ScopedLocalRef.copyCtor (fun _ r => r + 100) { mEnv := 1, mLocalRef := 5 }).self.mLocalRef
      = 105 ∧
    (ScopedLocalRef.copyCtor (fun _ r => r + 100) { mEnv := 1, mLocalRef := 5 }).self.dtor.calls
      = [JNICall.DeleteLocalRef 1 105] ∧
    (∀ a ∈ releasedHandles (ScopedLocalRef.dtor { mEnv := 1, mLocalRef := 5 }).calls,
      ∀ b ∈ releasedHandles (ScopedLocalRef.copyCtor (fun _ r => r + 100)
          { mEnv := 1, mLocalRef := 5 }).self.dtor.calls,
        a ≠ b) :=
  have h := C10_copy_holds_new_ref (fun _ r => r + 100) { mEnv := 1, mLocalRef := 5 }
    (by decide)
  ⟨h.2.2.1, h.2.2.2.2.1, h.2.2.2.2.2.mpr (by decide)⟩

/-! ## Assignment, storage and the arguments of release calls -/

/-- C11: for every pair of objects `a` and `b`, assigning `b` to `a` leaves
the held handle and the context of `a` and of `b` as they were and makes no
JNI call; so the release calls each of them makes when destroyed afterwards
are those it would have made without the assignment, and `a` holds the handle
of `b` afterwards only if it held it before. -/
theorem C11_assign_noop (a b : ScopedLocalRef) :
    (a.assign b).1.self = a ∧
    (a.assign b).2 = b ∧
    (a.assign b).1.calls = [] ∧
    (a.assign b).1.self.dtor.calls = a.dtor.calls ∧
    (a.assign b).2.dtor.calls = b.dtor.calls ∧
    ((a.assign b).1.self.mLocalRef = (a.assign b).2.mLocalRef → a.mLocalRef = b.mLocalRef) :=
  ⟨rfl, rfl, rfl, rfl, rfl, fun h => h⟩

/-- C12: right after construction with handle `h`, `get()` returns `h` and no
JNI call has been made (by the constructor or by `get`); and from every state,
for every argument `p`, `get()` right after `reset(p)` returns `p`, also when
`p` is empty and when `p` is the held handle. -/
theorem C12_ctor_reset_store (env : JNIEnvPtr) (h : Handle) (g : ScopedLocalRef) (p : Handle) :
    (ScopedLocalRef.ctor env h).self.get.ret = h ∧
    (ScopedLocalRef.ctor env h).calls ++ (ScopedLocalRef.ctor env h).self.get.calls = [] ∧
    (afterOps env h []).2 = [] ∧
    (g.reset p).self.get.ret = p ∧
    (g.reset nullptr).self.get.ret = nullptr ∧
    (g.reset g.mLocalRef).self.get.ret = g.mLocalRef := by
  refine ⟨rfl, rfl, rfl, ?_, ?_, ?_⟩
  · exact reset_holds g p
  · exact reset_holds g nullptr
  · exact reset_holds g g.mLocalRef

/-- A `DeleteLocalRef` call in a sequence of JNI calls has its handle among the
released handles. -/
theorem mem_releasedHandles (env : JNIEnvPtr) (ref : Handle) (cs : List JNICall)
    (h : JNICall.DeleteLocalRef env ref ∈ cs) : ref ∈ releasedHandles cs := by
  induction cs with
  | nil => simp at h
  | cons c rest ih =>
    cases c with
    | DeleteLocalRef e r =>
      simp only [List.mem_cons, JNICall.DeleteLocalRef.injEq] at h
      simp only [releasedHandles, List.mem_cons]
      rcases h with h | h
      · exact Or.inl h.2
      · exact Or.inr (ih h)
    | NewLocalRef e r =>
      simp only [List.mem_cons] at h
      simp only [releasedHandles]
      rcases h with h | h
      · cases h
      · exact ih h

/-- C14: over construction, any finite sequence of `reset`/`release`/`get`
operations and destruction, every `DeleteLocalRef` call made has a non-empty
handle as its argument. -/
theorem C14_release_arg_nonnull (env : JNIEnvPtr) (localRef : Handle) (ops : List Op) :
    (∀ (e : JNIEnvPtr) (ref : Handle),
      JNICall.DeleteLocalRef e ref ∈ lifetimeCalls env localRef ops → ref ≠ nullptr) ∧
    nullptr ∉ releasedHandles (lifetimeCalls env localRef ops) := by
  have hnot : nullptr ∉ releasedHandles (lifetimeCalls env localRef ops) := by
    simp only [lifetimeCalls, releasedHandles_append, List.mem_append, not_or]
    exact ⟨⟨by simp [ScopedLocalRef.ctor, releasedHandles],
      runOps_releases_nonnull (ScopedLocalRef.ctor env localRef).self ops⟩,
      dtor_releases_nonnull (runOps (ScopedLocalRef.ctor env localRef).self ops).1⟩
  refine ⟨?_, hnot⟩
  intro e ref hmem hz
  apply hnot
  rw [← hz]
  exact mem_releasedHandles e ref _ hmem

/-! ## Ownership accounting -/

/-- The supplied handles of an object that starts empty. -/
theorem supplied_null (ops : List Op) :
    suppliedHandles nullptr ops = (resetArgs ops).filter (fun h => h ≠ nullptr) := by
  simp [suppliedHandles]

/-- The supplied handles of an object that starts with a non-empty handle. -/
theorem supplied_nonnull (h : Handle) (hh : h ≠ nullptr) (ops : List Op) :
    suppliedHandles h ops = h :: (resetArgs ops).filter (fun h => h ≠ nullptr) := by
  have hh0 : ¬ h = 0 := hh
  simp [suppliedHandles, hh0]

/-- A supplied handle is non-empty. -/
theorem supplied_ne_null (h : Handle) (ops : List Op) (x : Handle)
    (hx : x ∈ suppliedHandles h ops) : x ≠ nullptr := by
  simp only [suppliedHandles, List.mem_filter, decide_eq_true_eq] at hx
  exact hx.2

/-- A non-empty handle returned by `release()` was held at the start or handed
to `reset`. -/
theorem releaseReturns_supplied (g : ScopedLocalRef) (ops : List Op) (x : Handle)
    (hx : x ∈ releaseReturns g ops) (hn : x ≠ nullptr) :
    x ∈ suppliedHandles g.mLocalRef ops := by
  induction ops generalizing g with
  | nil => simp [releaseReturns] at hx
  | cons op rest ih =>
    cases op with
    | reset ptr =>
      have h1 := ih (g.reset ptr).self hx
      rw [reset_holds] at h1
      simp only [suppliedHandles, resetArgs, List.mem_filter, List.mem_cons] at h1 ⊢
      exact ⟨Or.inr h1.1, h1.2⟩
    | release =>
      simp only [releaseReturns, List.mem_cons] at hx
      rcases hx with hx | hx
      · simp only [suppliedHandles, resetArgs, List.mem_filter, List.mem_cons]
        exact ⟨Or.inl hx, by simpa using hn⟩
      · have h1 := ih g.release.self hx
        simp only [suppliedHandles, resetArgs, List.mem_filter, List.mem_cons] at h1 ⊢
        rcases h1 with ⟨h1 | h1, h2⟩
        · exact absurd h1 hn
        · exact ⟨Or.inr h1, h2⟩
    | get =>
      exact ih g.get.self hx

/-- From every state, when the held handle and the non-empty arguments of
`reset` are pairwise distinct, the JNI calls of a sequence of operations and
the destructor after it are `DeleteLocalRef` calls through the stored context,
one for each supplied handle that no `release()` returned, in the order of
supply. -/
theorem run_dtor_exact (g : ScopedLocalRef) (ops : List Op)
    (hs : (suppliedHandles g.mLocalRef ops).Nodup) :
    (runOps g ops).2 ++ (runOps g ops).1.dtor.calls =
      ((suppliedHandles g.mLocalRef ops).filter
        (fun h => decide (h ∉ releaseReturns g ops))).map (JNICall.DeleteLocalRef g.mEnv) := by
  induction ops generalizing g with
  | nil =>
    simp only [runOps, List.nil_append, releaseReturns]
    rw [dtor_spec_calls]
    by_cases hc : g.mLocalRef = nullptr
    · simp [specDestruction, suppliedHandles, resetArgs, hc]
    · have hc0 : ¬ g.mLocalRef = 0 := hc
      simp [specDestruction, suppliedHandles, resetArgs, hc0]
  | cons op rest ih =>
    cases op with
    | get => exact ih g hs
    | release =>
      have hnull : g.release.self.mLocalRef = nullptr := rfl
      have hsub : (suppliedHandles nullptr rest).Nodup := by
        by_cases hc : g.mLocalRef = nullptr
        · rw [hc] at hs; exact hs
        · have h := supplied_nonnull g.mLocalRef hc (Op.release :: rest)
          rw [h] at hs
          rw [supplied_null]
          exact hs.of_cons
      have h1 := ih g.release.self (by rw [hnull]; exact hsub)
      have hfil : (suppliedHandles g.mLocalRef (Op.release :: rest)).filter
            (fun h => decide (h ∉ releaseReturns g (Op.release :: rest)))
          = (suppliedHandles nullptr rest).filter
            (fun h => decide (h ∉ releaseReturns g.release.self rest)) := by
        by_cases hc : g.mLocalRef = nullptr
        · rw [hc]
          apply List.filter_congr
          intro x hx
          have hx0 : x ≠ nullptr := supplied_ne_null nullptr _ x hx
          have hx1 : ¬ x = g.mLocalRef := fun e => hx0 (e.trans hc)
          simp [releaseReturns, ScopedLocalRef.release, hx1]
        · have h := supplied_nonnull g.mLocalRef hc (Op.release :: rest)
          rw [h] at hs ⊢
          rw [supplied_null]
          rw [List.filter_cons_of_neg (by simp [releaseReturns, ScopedLocalRef.release])]
          apply List.filter_congr
          intro x hx
          have hx1 : ¬ x = g.mLocalRef := fun e => (List.nodup_cons.mp hs).1 (e ▸ hx)
          simp [releaseReturns, ScopedLocalRef.release, hx1]
      rw [hfil]
      exact h1
    | reset ptr =>
      by_cases hn : ptr = g.mLocalRef
      · have hc : g.mLocalRef = nullptr := by
          by_contra hc
          have h := supplied_nonnull g.mLocalRef hc (Op.reset ptr :: rest)
          rw [h] at hs
          apply (List.nodup_cons.mp hs).1
          simp only [resetArgs, List.mem_filter, List.mem_cons, decide_eq_true_eq]
          exact ⟨Or.inl hn.symm, hc⟩
        have hsup : suppliedHandles g.mLocalRef (Op.reset ptr :: rest)
            = suppliedHandles g.mLocalRef rest := by
          have hp0 : ptr = 0 := hn.trans hc
          have hc0 : g.mLocalRef = 0 := hc
          simp [suppliedHandles, resetArgs, hp0, hc0]
        rw [hsup] at hs ⊢
        have h1 := ih g hs
        simp only [runOps, Op.apply, releaseReturns, reset_same g ptr hn]
        exact h1
      · by_cases hc : g.mLocalRef = nullptr
        · have hsup : suppliedHandles g.mLocalRef (Op.reset ptr :: rest)
              = suppliedHandles ptr rest := by
            have hc0 : g.mLocalRef = 0 := hc
            simp [suppliedHandles, resetArgs, hc0]
          rw [hsup] at hs ⊢
          have h1 := ih { mEnv := g.mEnv, mLocalRef := ptr } hs
          simp only [runOps, Op.apply, releaseReturns, reset_other_empty g ptr hn hc]
          exact h1
        · have hsup : suppliedHandles g.mLocalRef (Op.reset ptr :: rest)
              = g.mLocalRef :: suppliedHandles ptr rest := by
            have hc0 : ¬ g.mLocalRef = 0 := hc
            simp [suppliedHandles, resetArgs, hc0]
          rw [hsup] at hs ⊢
          have hs2 := List.nodup_cons.mp hs
          have h1 := ih { mEnv := g.mEnv, mLocalRef := ptr } hs2.2
          have hnot : g.mLocalRef ∉ releaseReturns { mEnv := g.mEnv, mLocalRef := ptr } rest :=
            fun hmem => hs2.1 (releaseReturns_supplied _ rest g.mLocalRef hmem hc)
          simp only [runOps, Op.apply, releaseReturns, reset_other_held g ptr hn hc]
          rw [List.filter_cons_of_pos (by simpa using hnot)]
          simp only [List.map_cons, List.cons_append, List.nil_append, List.singleton_append]
          rw [← h1]

/-- The release calls of a run of `DeleteLocalRef` calls through one context
are the handles passed. -/
theorem releasedHandles_map (env : JNIEnvPtr) (l : List Handle) :
    releasedHandles (l.map (JNICall.DeleteLocalRef env)) = l := by
  induction l with
  | nil => rfl
  | cons h rest ih => simp [releasedHandles, ih]

/-- C13: for every object constructed with handle `h0` and every finite
sequence of `reset(p)`/`release()`/`get()` operations followed by destruction,
if the non-empty handles supplied (`h0` and the arguments of `reset`) are
pairwise distinct, then the JNI calls made are `DeleteLocalRef` calls through
the constructor's context whose handles are exactly the supplied non-empty
handles that no `release()` call returned, in the order they were supplied:
each such handle is released exactly once, and no handle returned by
`release()` is released. -/
theorem C13_ownership_accounting (env : JNIEnvPtr) (h0 : Handle) (ops : List Op)
    (hs : (suppliedHandles h0 ops).Nodup) :
    lifetimeCalls env h0 ops =
      ((suppliedHandles h0 ops).filter
        (fun h => decide (h ∉ releaseReturns (ScopedLocalRef.ctor env h0).self ops))).map
        (JNICall.DeleteLocalRef env) ∧
    releasedHandles (lifetimeCalls env h0 ops) =
      (suppliedHandles h0 ops).filter
        (fun h => decide (h ∉ releaseReturns (ScopedLocalRef.ctor env h0).self ops)) ∧
    (releasedHandles (lifetimeCalls env h0 ops)).Nodup ∧
    (∀ v ∈ suppliedHandles h0 ops, v ∉ releaseReturns (ScopedLocalRef.ctor env h0).self ops →
      List.count v (releasedHandles (lifetimeCalls env h0 ops)) = 1) ∧
    (∀ v ∈ releaseReturns (ScopedLocalRef.ctor env h0).self ops,
      v ∉ releasedHandles (lifetimeCalls env h0 ops)) := by
  have hcalls : lifetimeCalls env h0 ops =
      ((suppliedHandles h0 ops).filter
        (fun h => decide (h ∉ releaseReturns (ScopedLocalRef.ctor env h0).self ops))).map
        (JNICall.DeleteLocalRef env) := by
    have h := run_dtor_exact (ScopedLocalRef.ctor env h0).self ops hs
    simp only [lifetimeCalls]
    exact h
  have hrel : releasedHandles (lifetimeCalls env h0 ops) =
      (suppliedHandles h0 ops).filter
        (fun h => decide (h ∉ releaseReturns (ScopedLocalRef.ctor env h0).self ops)) := by
    rw [hcalls, releasedHandles_map]
  have hnd : (releasedHandles (lifetimeCalls env h0 ops)).Nodup := by
    rw [hrel]
    exact hs.filter _
  refine ⟨hcalls, hrel, hnd, ?_, ?_⟩
  · intro v hv hret
    apply List.count_eq_one_of_mem hnd
    rw [hrel, List.mem_filter]
    exact ⟨hv, by simpa using hret⟩
  · intro v hv hmem
    rw [hrel, List.mem_filter] at hmem
    have h2 : v ∉ releaseReturns (ScopedLocalRef.ctor env h0).self ops := by simpa using hmem.2
    exact h2 hv

/-- C13 at a concrete run: handle 5, then `reset(7)`, `release()` (which
returns 7), `reset(9)`, `get()`, `reset(nullptr)`, `reset(11)`, `release()`
(which returns 11), `reset(13)`; the supplied handles 5, 7, 9, 11, 13 are
pairwise distinct and the release calls are 5, 9, 13, in that order. -/
theorem C13_ownership_accounting_witness :
    (suppliedHandles 5 [Op.reset 7, Op.release, Op.reset 9, Op.get, Op.reset nullptr,
        Op.reset 11, Op.release, Op.reset 13]).Nodup ∧
    lifetimeCalls 1 5 [Op.reset 7, Op.release, Op.reset 9, Op.get, Op.reset nullptr,
        Op.reset 11, Op.release, Op.reset 13]
      = [JNICall.DeleteLocalRef 1 5, JNICall.DeleteLocalRef 1 9, JNICall.DeleteLocalRef 1 13] :=
  ⟨by decide,
    (C13_ownership_accounting 1 5 [Op.reset 7, Op.release, Op.reset 9, Op.get, Op.reset nullptr,
        Op.reset 11, Op.release, Op.reset 13] (by decide)).1.trans (by decide)⟩

end org_opendatakit
